import Mathlib

/-!
Shallow embedding of the Price Guardian reconciliation core (src/App.tsx):
the price registry, invoice ingestion, read-time variance derivation, the
pending-alert feed, and the alert-acceptance commit.  Prices, quantities
and amounts are modelled as exact rationals; the one place the source
divides (the derived `percentChange`) is modelled with JavaScript
semantics for division by zero, so that Infinity/NaN behaviour of the
source is visible in the model.  Dates are modelled by their timestamps
(the source only ever compares dates through `new Date(x).getTime()`),
and the generated entity ids by naturals drawn from a freshness counter.
-/

/-- JavaScript number results relevant to the source: a finite value, a
signed infinity, or NaN (the latter two can only arise from the division
in the variance derivation). -/
inductive JsNum where
  | fin (q : ℚ)
  | posInf
  | negInf
  | nan
deriving DecidableEq

/-- Division as JavaScript computes it on finite operands: `a / 0` is NaN
when `a = 0` and a signed infinity otherwise. -/
def jsDiv (a b : ℚ) : JsNum :=
  if b = 0 then
    if a = 0 then .nan else if 0 < a then .posInf else .negInf
  else .fin (a / b)

/-- Multiplication of a JavaScript number by the positive literal `100`
(as in `(change / master.currentPrice) * 100`). -/
def jsMul100 : JsNum → JsNum
  | .fin q => .fin (q * 100)
  | .posInf => .posInf
  | .negInf => .negInf
  | .nan => .nan

/-- JavaScript truthiness of a number: `0` and `NaN` are falsy. -/
def jsFalsy : JsNum → Bool
  | .fin q => q == 0
  | .nan => true
  | _ => false

/-- The source pattern `x || 0` on an optional JavaScript number. -/
def jsOrZero : Option JsNum → JsNum
  | none => .fin 0
  | some v => if jsFalsy v then .fin 0 else v

/-- The source pattern `x || 0` on an optional finite number (`0` itself
is falsy, so the result is its own fallback and `getD`-style defaulting
is exact). -/
def ratOrZero : Option ℚ → ℚ
  | none => 0
  | some v => v

/-- Provenance tag of a price-history entry (types.ts `PriceHistoryEntry.source`). -/
inductive PriceSource where
  | audit
  | manual
  | email
deriving DecidableEq

/-- One anchor point of a master item's price timeline (types.ts
`PriceHistoryEntry`). -/
structure PriceHistoryEntry where
  date : ℤ
  price : ℚ
  variance : ℚ
  percentChange : JsNum
  source : PriceSource
  invoiceNumber : Option String
deriving DecidableEq

/-- A registry baseline for one (supplier, product-name) pair (types.ts
`MasterItem`). -/
structure MasterItem where
  id : ℕ
  supplierName : String
  name : String
  currentPrice : ℚ
  history : List PriceHistoryEntry
  lastUpdated : ℤ
deriving DecidableEq

/-- One invoice line item, as extracted plus the read-time derived
variance fields (types.ts `InvoiceItem`; the derived fields are `none`
on the stored raw item). -/
structure InvoiceItem where
  name : String
  unitPrice : ℚ
  quantity : ℚ
  total : ℚ
  previousUnitPrice : Option ℚ
  priceChange : Option ℚ
  percentChange : Option JsNum
deriving DecidableEq

/-- Overall invoice status (types.ts `Invoice.status`). -/
inductive Status where
  | matched
  | price_increase
  | price_decrease
  | mixed
  | new_supplier
deriving DecidableEq

/-- One audited procurement document (types.ts `Invoice`, restricted to
the fields the reconciliation core reads). -/
structure Invoice where
  id : ℕ
  supplierName : String
  date : ℤ
  invoiceNumber : String
  totalAmount : ℚ
  gstAmount : ℚ
  items : List InvoiceItem
  status : Status
  isPaid : Bool
  isHold : Bool
  fileName : String
deriving DecidableEq

/-- Aggregate supplier record (types.ts `Supplier`); the optional
contact/banking fields use `none` for absent-or-empty. -/
structure Supplier where
  id : ℕ
  name : String
  bankAccount : Option String
  address : Option String
  abn : Option String
  tel : Option String
  email : Option String
  creditTerm : Option String
  totalSpent : ℚ
deriving DecidableEq

/-- A pending price alert as built in `activeAlerts` (App.tsx line 238);
`masterId` is `none` when the registry lookup found no item. -/
structure Alert where
  id : String
  masterId : Option ℕ
  itemName : String
  supplier : String
  oldPrice : ℚ
  newPrice : ℚ
  change : JsNum
  amountChange : ℚ
  invoiceNumber : String
  date : ℤ
deriving DecidableEq

/-- An entry of the acceptance log: the alert's full context plus the
acceptance timestamp (`{...alertData, acceptedAt}` in App.tsx line 208). -/
structure AcceptedAlert extends Alert where
  acceptedAt : ℤ
deriving DecidableEq

/-- The per-user application state the reconciliation core mutates, plus
a freshness counter modelling the source's generated-id scheme. -/
structure St where
  rawInvoices : List Invoice
  masterItems : List MasterItem
  suppliers : List Supplier
  acceptedAlertHistory : List AcceptedAlert
  nextId : ℕ
deriving DecidableEq

/-- Registry lookup by the natural key, as in
`masterItems.find(m => m.name === item.name && m.supplierName === inv.supplierName)`. -/
def findMaster (ms : List MasterItem) (sn itemName : String) : Option MasterItem :=
  ms.find? fun m => m.name == itemName && m.supplierName == sn

/-- Per-item variance derivation (App.tsx lines 218-225): when a master
item exists for the key and its anchored price differs from the observed
unit price, attach the three derived fields; otherwise return the item
as stored. -/
def enrichItem (ms : List MasterItem) (sn : String) (item : InvoiceItem) : InvoiceItem :=
  match findMaster ms sn item.name with
  | some master =>
      if master.currentPrice ≠ item.unitPrice then
        let change := item.unitPrice - master.currentPrice
        { item with previousUnitPrice := some master.currentPrice,
                    priceChange := some change,
                    percentChange := some (jsMul100 (jsDiv change master.currentPrice)) }
      else item
  | none => item

/-- Invoice-level enrichment (App.tsx lines 217-226): map the item
derivation over the items; every other invoice field, the stored
`status` included, is carried over unchanged. -/
def enrichInvoice (ms : List MasterItem) (inv : Invoice) : Invoice :=
  { inv with items := inv.items.map (enrichItem ms inv.supplierName) }

/-- The read-time enriched invoice list (App.tsx lines 216-228): enrich
every raw invoice against the current registry, then sort by date
descending. -/
def enrichedInvoices (st : St) : List Invoice :=
  (st.rawInvoices.map (enrichInvoice st.masterItems)).mergeSort fun a b => b.date ≤ a.date

/-- Suppression test (1) of App.tsx line 235: some accepted alert has
this invoice's number and this item's name. -/
def alreadyAccepted (hist : List AcceptedAlert) (inv : Invoice) (item : InvoiceItem) : Bool :=
  hist.any fun h => h.invoiceNumber == inv.invoiceNumber && h.itemName == item.name

/-- Suppression test (2) of App.tsx line 236: some accepted alert for
the same item name and supplier carries a strictly later date. -/
def newerAcceptedExists (hist : List AcceptedAlert) (inv : Invoice) (item : InvoiceItem) : Bool :=
  hist.any fun h => h.itemName == item.name && h.supplier == inv.supplierName &&
    inv.date < h.date

/-- The alert record pushed for a surviving (invoice, item) pair
(App.tsx lines 238-244). -/
def mkAlert (ms : List MasterItem) (inv : Invoice) (item : InvoiceItem) : Alert :=
  { id := toString inv.id ++ "-" ++ item.name,
    masterId := (findMaster ms inv.supplierName item.name).map (·.id),
    itemName := item.name,
    supplier := inv.supplierName,
    oldPrice := ratOrZero item.previousUnitPrice,
    newPrice := item.unitPrice,
    change := jsOrZero item.percentChange,
    amountChange := ratOrZero item.priceChange,
    invoiceNumber := inv.invoiceNumber,
    date := inv.date }

/-- The alert contributed by one (invoice, item) pair of the enriched
view, if any (the body of the nested loops of App.tsx lines 232-247):
the pair must carry a truthy `priceChange` of magnitude above `0.01`
and pass both suppression tests. -/
def alertEntry (st : St) (inv : Invoice) (item : InvoiceItem) : Option Alert :=
  match item.priceChange with
  | none => none
  | some c =>
      if c ≠ 0 ∧ |c| > 1/100 then
        if alreadyAccepted st.acceptedAlertHistory inv item = false ∧
            newerAcceptedExists st.acceptedAlertHistory inv item = false then
          some (mkAlert st.masterItems inv item)
        else none
      else none

/-- The pending-alert feed (App.tsx lines 230-250): every surviving
(invoice, item) pair of the enriched view, in traversal order. -/
def activeAlerts (st : St) : List Alert :=
  (enrichedInvoices st).flatMap fun inv => inv.items.filterMap (alertEntry st inv)

/-- Registry commit of an accepted price shift (App.tsx lines 201-214):
for each registry item whose id equals `itemId` (none when the alert's
lookup failed), prepend a history entry carrying the alert's figures,
re-anchor `currentPrice`, and prepend one acceptance-log record; items
with other ids, and the log when nothing matches, are untouched. -/
def commitPriceChange (st : St) (itemId : Option ℕ) (a : Alert) (now : ℤ) : St :=
  let entry : PriceHistoryEntry :=
    { date := a.date, price := a.newPrice, variance := a.amountChange,
      percentChange := a.change, source := .audit, invoiceNumber := some a.invoiceNumber }
  let record : AcceptedAlert := { toAlert := a, acceptedAt := now }
  { st with
    masterItems := st.masterItems.map fun m =>
      if some m.id == itemId then
        { m with currentPrice := a.newPrice, history := entry :: m.history,
                 lastUpdated := a.date }
      else m,
    acceptedAlertHistory :=
      ((st.masterItems.filter fun m => some m.id == itemId).map fun _ => record)
        ++ st.acceptedAlertHistory }

/-- The errors the spec's acceptance workflow can surface. -/
inductive PgError where
  | notFoundError
deriving DecidableEq

/-- Acceptance of a pending alert (App.tsx lines 330-333): the source
body is a single `commitPriceChange(alert.masterId, alert)` call with no
throwing path, so the embedding always returns `ok`. -/
def handleAcceptPrice (st : St) (a : Alert) (now : ℤ) : Except PgError St :=
  .ok (commitPriceChange st a.masterId a now)

/-- One extracted line item as delivered by the extraction service. -/
structure ExtractedItem where
  name : String
  unitPrice : ℚ
  quantity : ℚ
  total : ℚ
deriving DecidableEq

/-- One extraction result (the `data` of App.tsx line 289, restricted to
the fields ingestion reads). -/
structure ExtractedData where
  supplierName : String
  date : ℤ
  invoiceNumber : String
  totalAmount : ℚ
  gstAmount : ℚ
  bankAccount : Option String
  address : Option String
  abn : Option String
  tel : Option String
  email : Option String
  creditTerm : Option String
  items : List ExtractedItem
deriving DecidableEq

/-- An extracted item as stored on the new raw invoice: no derived
variance fields. -/
def rawItem (it : ExtractedItem) : InvoiceItem :=
  { name := it.name, unitPrice := it.unitPrice, quantity := it.quantity,
    total := it.total, previousUnitPrice := none, priceChange := none,
    percentChange := none }

/-- Master-item seeding for one line item (the loop body of App.tsx
lines 307-317): if an item for the (supplier, name) key already exists
in the accumulated list, do nothing; otherwise append a fresh item
anchored at the observed unit price with a single zero-variance history
entry of source `audit`.  The second component is the id counter. -/
def ensureItem (sn : String) (d : ℤ) (invNum : String)
    (acc : List MasterItem × ℕ) (it : ExtractedItem) : List MasterItem × ℕ :=
  if acc.1.any (fun m => m.name == it.name && m.supplierName == sn) then acc
  else
    (acc.1 ++ [{ id := acc.2, supplierName := sn, name := it.name,
                 currentPrice := it.unitPrice, lastUpdated := d,
                 history := [{ date := d, price := it.unitPrice, variance := 0,
                               percentChange := .fin 0, source := .audit,
                               invoiceNumber := some invNum }] }],
     acc.2 + 1)

/-- The source pattern `data.field || existing?.field` on optional
string fields of the supplier merge. -/
def mergeField (fresh old : Option String) : Option String :=
  match fresh with
  | some v => some v
  | none => old

/-- Supplier upsert of ingestion (App.tsx lines 294-304): merge into the
existing record of the same name, preferring newly extracted non-empty
fields and adding the invoice total to `totalSpent`; or append a fresh
record whose `totalSpent` is the invoice total. -/
def updateSuppliers (sups : List Supplier) (d : ExtractedData) (fresh : ℕ) : List Supplier :=
  match sups.find? (fun s => s.name == d.supplierName) with
  | some existing =>
      let merged : Supplier :=
        { id := existing.id, name := d.supplierName,
          bankAccount := mergeField d.bankAccount existing.bankAccount,
          address := mergeField d.address existing.address,
          abn := mergeField d.abn existing.abn,
          tel := mergeField d.tel existing.tel,
          email := mergeField d.email existing.email,
          creditTerm := mergeField d.creditTerm existing.creditTerm,
          totalSpent := existing.totalSpent + d.totalAmount }
      sups.map fun s => if s.name == d.supplierName then merged else s
  | none =>
      sups ++ [{ id := fresh, name := d.supplierName,
                 bankAccount := d.bankAccount, address := d.address,
                 abn := d.abn, tel := d.tel, email := d.email,
                 creditTerm := d.creditTerm, totalSpent := d.totalAmount }]

/-- Ingestion of one successfully extracted document (App.tsx lines
290-320): prepend a new raw invoice with cleared flags and status
`matched`, upsert the supplier aggregate, and seed the registry through
`ensureItem` for every line item.  Generated ids are drawn from the
freshness counter. -/
def ingest (st : St) (d : ExtractedData) (fileName : String) : St :=
  let inv : Invoice :=
    { id := st.nextId, supplierName := d.supplierName, date := d.date,
      invoiceNumber := d.invoiceNumber, totalAmount := d.totalAmount,
      gstAmount := d.gstAmount, items := d.items.map rawItem,
      status := .matched, isPaid := false, isHold := false, fileName := fileName }
  let seeded := d.items.foldl (ensureItem d.supplierName d.date d.invoiceNumber)
    (st.masterItems, st.nextId + 2)
  { rawInvoices := inv :: st.rawInvoices,
    masterItems := seeded.1,
    suppliers := updateSuppliers st.suppliers d (st.nextId + 1),
    acceptedAlertHistory := st.acceptedAlertHistory,
    nextId := seeded.2 }

/-- Payment toggle (App.tsx lines 191-194): flip `isPaid` of the
addressed invoice and force `isHold` off. -/
def toggleInvoicePaid (st : St) (id : ℕ) : St :=
  { st with rawInvoices := st.rawInvoices.map fun inv =>
      if inv.id = id then { inv with isPaid := !inv.isPaid, isHold := false } else inv }

/-- Hold toggle (App.tsx lines 196-199): flip `isHold` of the addressed
invoice and force `isPaid` off. -/
def toggleInvoiceHold (st : St) (id : ℕ) : St :=
  { st with rawInvoices := st.rawInvoices.map fun inv =>
      if inv.id = id then { inv with isHold := !inv.isHold, isPaid := false } else inv }

/-- Invoice hard delete (App.tsx lines 161-166): filter the raw invoice
list; no other aggregate is touched. -/
def deleteInvoice (st : St) (id : ℕ) : St :=
  { st with rawInvoices := st.rawInvoices.filter fun inv => inv.id ≠ id }

/-- Master-item hard delete (App.tsx lines 168-173). -/
def deleteMasterItem (st : St) (id : ℕ) : St :=
  { st with masterItems := st.masterItems.filter fun m => m.id ≠ id }

/-- The empty per-user state a fresh vault starts from. -/
def initSt : St :=
  { rawInvoices := [], masterItems := [], suppliers := [],
    acceptedAlertHistory := [], nextId := 0 }

/-- One user-level operation of the reconciliation core.  Acceptance is
restricted to alerts of the currently displayed feed, which the source
recomputes from the current state on every render. -/
inductive Step : St → St → Prop where
  | ingest (s : St) (d : ExtractedData) (fileName : String) :
      Step s (ingest s d fileName)
  | accept (s s' : St) (a : Alert) (now : ℤ) (ha : a ∈ activeAlerts s)
      (hok : handleAcceptPrice s a now = .ok s') : Step s s'
  | togglePaid (s : St) (id : ℕ) : Step s (toggleInvoicePaid s id)
  | toggleHold (s : St) (id : ℕ) : Step s (toggleInvoiceHold s id)
  | delInvoice (s : St) (id : ℕ) : Step s (deleteInvoice s id)
  | delMaster (s : St) (id : ℕ) : Step s (deleteMasterItem s id)

/-- States reachable from the empty vault by core operations. -/
inductive Reachable : St → Prop where
  | init : Reachable initSt
  | step {s s' : St} : Reachable s → Step s s' → Reachable s'

/-- The per-entry chain law of a history array: each entry's variance is
its price minus the next (older) entry's price. -/
def chainOk : List PriceHistoryEntry → Prop
  | [] => True
  | [_] => True
  | a :: b :: t => a.variance = a.price - b.price ∧ chainOk (b :: t)

/-- The registry invariant for one master item: nonempty history whose
head price is the anchored price, and the chain law throughout. -/
def itemOk (m : MasterItem) : Prop :=
  (∃ e t, m.history = e :: t ∧ m.currentPrice = e.price) ∧ chainOk m.history

/-- The state well-formedness the reachability induction maintains:
distinct bounded master ids, the registry invariant, the paid/hold
exclusion, and raw invoices carrying no derived fields. -/
def GoodSt (s : St) : Prop :=
  (s.masterItems.map (·.id)).Nodup ∧
  (∀ m ∈ s.masterItems, m.id < s.nextId) ∧
  (∀ m ∈ s.masterItems, itemOk m) ∧
  (∀ inv ∈ s.rawInvoices, inv.isPaid = false ∨ inv.isHold = false) ∧
  (∀ inv ∈ s.rawInvoices, ∀ it ∈ inv.items,
    it.previousUnitPrice = none ∧ it.priceChange = none ∧ it.percentChange = none)

theorem enrichItem_of_none {ms : List MasterItem} {sn : String} {it : InvoiceItem}
    (hm : findMaster ms sn it.name = none) : enrichItem ms sn it = it := by
  unfold enrichItem
  rw [hm]

theorem enrichItem_of_some {ms : List MasterItem} {sn : String} {it : InvoiceItem}
    {master : MasterItem} (hm : findMaster ms sn it.name = some master) :
    enrichItem ms sn it =
      if master.currentPrice ≠ it.unitPrice then
        { it with previousUnitPrice := some master.currentPrice,
                  priceChange := some (it.unitPrice - master.currentPrice),
                  percentChange := some (jsMul100
                    (jsDiv (it.unitPrice - master.currentPrice) master.currentPrice)) }
      else it := by
  unfold enrichItem
  rw [hm]

theorem enrichItem_cases (ms : List MasterItem) (sn : String) (it : InvoiceItem) :
    enrichItem ms sn it = it ∨
    ∃ master, findMaster ms sn it.name = some master ∧
      master.currentPrice ≠ it.unitPrice ∧
      enrichItem ms sn it =
        { it with previousUnitPrice := some master.currentPrice,
                  priceChange := some (it.unitPrice - master.currentPrice),
                  percentChange := some (jsMul100
                    (jsDiv (it.unitPrice - master.currentPrice) master.currentPrice)) } := by
  cases hm : findMaster ms sn it.name with
  | none => exact Or.inl (enrichItem_of_none hm)
  | some master =>
    by_cases hne : master.currentPrice = it.unitPrice
    · exact Or.inl (by rw [enrichItem_of_some hm, if_neg (by simpa using hne)])
    · exact Or.inr ⟨master, rfl, hne, by rw [enrichItem_of_some hm, if_pos hne]⟩

theorem enrichItem_name (ms : List MasterItem) (sn : String) (it : InvoiceItem) :
    (enrichItem ms sn it).name = it.name := by
  rcases enrichItem_cases ms sn it with h | ⟨master, _, _, h⟩ <;> rw [h]

theorem enrichItem_unitPrice (ms : List MasterItem) (sn : String) (it : InvoiceItem) :
    (enrichItem ms sn it).unitPrice = it.unitPrice := by
  rcases enrichItem_cases ms sn it with h | ⟨master, _, _, h⟩ <;> rw [h]

theorem mem_enrichedInvoices {st : St} {inv : Invoice} :
    inv ∈ enrichedInvoices st ↔
      ∃ rinv ∈ st.rawInvoices, inv = enrichInvoice st.masterItems rinv := by
  unfold enrichedInvoices
  rw [List.mem_mergeSort, List.mem_map]
  constructor
  · rintro ⟨rinv, hmem, heq⟩; exact ⟨rinv, hmem, heq.symm⟩
  · rintro ⟨rinv, hmem, heq⟩; exact ⟨rinv, hmem, heq.symm⟩

theorem mem_activeAlerts {st : St} {a : Alert} :
    a ∈ activeAlerts st ↔
      ∃ inv ∈ enrichedInvoices st, ∃ item ∈ inv.items, alertEntry st inv item = some a := by
  unfold activeAlerts
  rw [List.mem_flatMap]
  constructor
  · rintro ⟨inv, hinv, hmem⟩
    rcases List.mem_filterMap.mp hmem with ⟨item, hitem, heq⟩
    exact ⟨inv, hinv, item, hitem, heq⟩
  · rintro ⟨inv, hinv, item, hitem, heq⟩
    exact ⟨inv, hinv, List.mem_filterMap.mpr ⟨item, hitem, heq⟩⟩

theorem alertEntry_of_none {st : St} {inv : Invoice} {item : InvoiceItem}
    (hpc : item.priceChange = none) : alertEntry st inv item = none := by
  unfold alertEntry
  rw [hpc]

theorem alertEntry_of_some {st : St} {inv : Invoice} {item : InvoiceItem} {c : ℚ}
    (hpc : item.priceChange = some c) :
    alertEntry st inv item =
      if c ≠ 0 ∧ |c| > 1/100 then
        if alreadyAccepted st.acceptedAlertHistory inv item = false ∧
            newerAcceptedExists st.acceptedAlertHistory inv item = false then
          some (mkAlert st.masterItems inv item)
        else none
      else none := by
  unfold alertEntry
  rw [hpc]

theorem alertEntry_some {st : St} {inv : Invoice} {item : InvoiceItem} {a : Alert} :
    alertEntry st inv item = some a ↔
      ∃ c, item.priceChange = some c ∧ c ≠ 0 ∧ |c| > 1/100 ∧
        alreadyAccepted st.acceptedAlertHistory inv item = false ∧
        newerAcceptedExists st.acceptedAlertHistory inv item = false ∧
        a = mkAlert st.masterItems inv item := by
  constructor
  · intro h
    cases hpc : item.priceChange with
    | none => rw [alertEntry_of_none hpc] at h; exact absurd h (by simp)
    | some c =>
      rw [alertEntry_of_some hpc] at h
      split_ifs at h with h1 h2
      · exact ⟨c, rfl, h1.1, h1.2, h2.1, h2.2, (Option.some_inj.mp h).symm⟩
  · rintro ⟨c, hc, hne, hgt, hacc, hnew, ha⟩
    rw [alertEntry_of_some hc, if_pos ⟨hne, hgt⟩, if_pos ⟨hacc, hnew⟩, ha]

theorem findMaster_mem {ms : List MasterItem} {sn itemName : String} {m : MasterItem}
    (h : findMaster ms sn itemName = some m) :
    m ∈ ms ∧ m.name = itemName ∧ m.supplierName = sn := by
  have hmem := List.mem_of_find?_eq_some h
  have hpred := List.find?_some h
  simp only [Bool.and_eq_true, beq_iff_eq] at hpred
  exact ⟨hmem, hpred.1, hpred.2⟩

/-- Soundness of a feed alert against the state it was computed from:
when its registry lookup succeeded, the referenced master item is in the
registry and the alert's absolute change is exactly the new price minus
that item's current anchored price.  The hypothesis that raw invoices
carry no derived fields rules out pre-seeded variance fields. -/
theorem alert_sound {s : St}
    (hraw : ∀ inv ∈ s.rawInvoices, ∀ it ∈ inv.items,
      it.previousUnitPrice = none ∧ it.priceChange = none ∧ it.percentChange = none)
    {a : Alert} (ha : a ∈ activeAlerts s) {i : ℕ} (hid : a.masterId = some i) :
    ∃ m₀ ∈ s.masterItems, m₀.id = i ∧ a.amountChange = a.newPrice - m₀.currentPrice := by
  rcases mem_activeAlerts.mp ha with ⟨inv, hinv, item, hitem, hentry⟩
  rcases alertEntry_some.mp hentry with ⟨c, hc, hc0, hcgt, hacc, hnew, haeq⟩
  rcases mem_enrichedInvoices.mp hinv with ⟨rinv, hrinv, hinveq⟩
  subst hinveq
  rcases List.mem_map.mp hitem with ⟨ritem, hritem, hiteq⟩
  have hsn : (enrichInvoice s.masterItems rinv).supplierName = rinv.supplierName := rfl
  have hrawfields := hraw rinv hrinv ritem hritem
  rcases enrichItem_cases s.masterItems rinv.supplierName ritem with hsame | ⟨master, hm, hne, heq⟩
  · rw [hsame] at hiteq
    rw [← hiteq] at hc
    rw [hrawfields.2.1] at hc
    exact absurd hc (by simp)
  · rw [heq] at hiteq
    have hnamee : item.name = ritem.name := by rw [← hiteq]
    have hupe : item.unitPrice = ritem.unitPrice := by rw [← hiteq]
    have hpce : item.priceChange = some (ritem.unitPrice - master.currentPrice) := by
      rw [← hiteq]
    have hcval : c = ritem.unitPrice - master.currentPrice := by
      rw [hpce] at hc; exact Option.some_inj.mp hc.symm
    refine ⟨master, (findMaster_mem hm).1, ?_, ?_⟩
    · have : a.masterId =
          (findMaster s.masterItems rinv.supplierName item.name).map (·.id) := by
        rw [haeq]; rfl
      rw [hnamee, hm] at this
      rw [this] at hid
      simpa using Option.some_inj.mp hid
    · have hamt : a.amountChange = ratOrZero item.priceChange := by rw [haeq]; rfl
      have hnp : a.newPrice = item.unitPrice := by rw [haeq]; rfl
      rw [hamt, hpce, hnp, hupe]
      rfl

/-- The fresh master item `ensureItem` seeds for an unseen key. -/
def seedItem (sn : String) (d : ℤ) (invNum : String) (fresh : ℕ)
    (it : ExtractedItem) : MasterItem :=
  { id := fresh, supplierName := sn, name := it.name,
    currentPrice := it.unitPrice, lastUpdated := d,
    history := [{ date := d, price := it.unitPrice, variance := 0,
                  percentChange := .fin 0, source := .audit,
                  invoiceNumber := some invNum }] }

theorem ensureItem_eq (sn : String) (d : ℤ) (invNum : String)
    (acc : List MasterItem × ℕ) (it : ExtractedItem) :
    ensureItem sn d invNum acc it =
      if acc.1.any (fun m => m.name == it.name && m.supplierName == sn) then acc
      else (acc.1 ++ [seedItem sn d invNum acc.2 it], acc.2 + 1) := rfl

theorem ensureItem_branches (sn : String) (d : ℤ) (invNum : String)
    (acc : List MasterItem × ℕ) (it : ExtractedItem) :
    ensureItem sn d invNum acc it = acc ∨
    ensureItem sn d invNum acc it = (acc.1 ++ [seedItem sn d invNum acc.2 it], acc.2 + 1) := by
  rw [ensureItem_eq]
  split_ifs <;> [exact Or.inl rfl; exact Or.inr rfl]

/-- Everything the reachability induction needs about the ingestion
seeding fold: the counter grows, every item of the result is either an
untouched input item or a freshly seeded one, and distinctness and the
counter bound of ids are preserved. -/
theorem ensureItem_fold_props (sn : String) (d : ℤ) (invNum : String)
    (items : List ExtractedItem) :
    ∀ acc : List MasterItem × ℕ,
      acc.2 ≤ (items.foldl (ensureItem sn d invNum) acc).2 ∧
      (∀ m ∈ (items.foldl (ensureItem sn d invNum) acc).1,
        m ∈ acc.1 ∨ (acc.2 ≤ m.id ∧
          ∃ e, m.history = [e] ∧ m.currentPrice = e.price ∧ e.variance = 0 ∧
            e.percentChange = .fin 0 ∧ e.source = .audit)) ∧
      ((acc.1.map (·.id)).Nodup → (∀ m ∈ acc.1, m.id < acc.2) →
        ((items.foldl (ensureItem sn d invNum) acc).1.map (·.id)).Nodup ∧
        ∀ m ∈ (items.foldl (ensureItem sn d invNum) acc).1,
          m.id < (items.foldl (ensureItem sn d invNum) acc).2) := by
  induction items with
  | nil =>
    intro acc
    refine ⟨le_refl _, fun m hm => Or.inl hm, fun h1 h2 => ⟨h1, h2⟩⟩
  | cons it rest ih =>
    intro acc
    rw [List.foldl_cons]
    rcases ensureItem_branches sn d invNum acc it with hb | hb <;> rw [hb]
    · exact ih acc
    · obtain ⟨ihle, ihmem, ihnd⟩ := ih (acc.1 ++ [seedItem sn d invNum acc.2 it], acc.2 + 1)
      refine ⟨le_trans (Nat.le_succ _) ihle, ?_, ?_⟩
      · intro m hm
        rcases ihmem m hm with hmem | ⟨hle, he⟩
        · rcases List.mem_append.mp hmem with h | h
          · exact Or.inl h
          · have hms : m = seedItem sn d invNum acc.2 it := by simpa using h
            refine Or.inr ⟨le_of_eq (by rw [hms]; rfl), ?_⟩
            rw [hms]
            exact ⟨_, rfl, rfl, rfl, rfl, rfl⟩
        · exact Or.inr ⟨le_trans (Nat.le_succ _) hle, he⟩
      · intro hnd hlt
        refine ihnd ?_ ?_
        · rw [List.map_append]
          refine List.Nodup.append hnd (by simp) ?_
          intro x hx hy
          rcases List.mem_map.mp hx with ⟨mx, hmx, hxe⟩
          have hxlt : x < acc.2 := hxe ▸ hlt mx hmx
          have hy' : x = acc.2 := by simpa [seedItem] using hy
          omega
        · intro m hm
          rcases List.mem_append.mp hm with h | h
          · exact lt_trans (hlt m h) (Nat.lt_succ_self _)
          · have hms : m = seedItem sn d invNum acc.2 it := by simpa using h
            rw [hms]
            exact Nat.lt_succ_self _

/-- The history entry the commit prepends (App.tsx lines 204-207). -/
def commitEntry (a : Alert) : PriceHistoryEntry :=
  { date := a.date, price := a.newPrice, variance := a.amountChange,
    percentChange := a.change, source := .audit, invoiceNumber := some a.invoiceNumber }

/-- The per-item update the commit maps over the registry. -/
def commitItem (a : Alert) (itemId : Option ℕ) (m : MasterItem) : MasterItem :=
  if some m.id == itemId then
    { m with currentPrice := a.newPrice, history := commitEntry a :: m.history,
             lastUpdated := a.date }
  else m

theorem commit_masterItems_eq (st : St) (itemId : Option ℕ) (a : Alert) (now : ℤ) :
    (commitPriceChange st itemId a now).masterItems =
      st.masterItems.map (commitItem a itemId) := rfl

theorem commit_log_eq (st : St) (itemId : Option ℕ) (a : Alert) (now : ℤ) :
    (commitPriceChange st itemId a now).acceptedAlertHistory =
      ((st.masterItems.filter fun m => some m.id == itemId).map
        fun _ => ({ toAlert := a, acceptedAt := now } : AcceptedAlert))
        ++ st.acceptedAlertHistory := rfl

theorem commit_rawInvoices_eq (st : St) (itemId : Option ℕ) (a : Alert) (now : ℤ) :
    (commitPriceChange st itemId a now).rawInvoices = st.rawInvoices := rfl

theorem commit_suppliers_eq (st : St) (itemId : Option ℕ) (a : Alert) (now : ℤ) :
    (commitPriceChange st itemId a now).suppliers = st.suppliers := rfl

theorem commit_nextId_eq (st : St) (itemId : Option ℕ) (a : Alert) (now : ℤ) :
    (commitPriceChange st itemId a now).nextId = st.nextId := rfl

theorem commitItem_id (a : Alert) (itemId : Option ℕ) (m : MasterItem) :
    (commitItem a itemId m).id = m.id := by
  unfold commitItem
  split <;> rfl

theorem commit_ids_eq (a : Alert) (itemId : Option ℕ) (ms : List MasterItem) :
    (ms.map (commitItem a itemId)).map (·.id) = ms.map (·.id) := by
  rw [List.map_map]
  exact List.map_congr_left fun m _ => commitItem_id a itemId m

theorem ingest_masterItems_eq (s : St) (d : ExtractedData) (fn : String) :
    (ingest s d fn).masterItems =
      (d.items.foldl (ensureItem d.supplierName d.date d.invoiceNumber)
        (s.masterItems, s.nextId + 2)).1 := rfl

theorem ingest_nextId_eq (s : St) (d : ExtractedData) (fn : String) :
    (ingest s d fn).nextId =
      (d.items.foldl (ensureItem d.supplierName d.date d.invoiceNumber)
        (s.masterItems, s.nextId + 2)).2 := rfl

theorem ingest_rawInvoices_eq (s : St) (d : ExtractedData) (fn : String) :
    (ingest s d fn).rawInvoices =
      { id := s.nextId, supplierName := d.supplierName, date := d.date,
        invoiceNumber := d.invoiceNumber, totalAmount := d.totalAmount,
        gstAmount := d.gstAmount, items := d.items.map rawItem,
        status := .matched, isPaid := false, isHold := false,
        fileName := fn } :: s.rawInvoices := rfl

theorem ingest_suppliers_eq (s : St) (d : ExtractedData) (fn : String) :
    (ingest s d fn).suppliers = updateSuppliers s.suppliers d (s.nextId + 1) := rfl

theorem ingest_log_eq (s : St) (d : ExtractedData) (fn : String) :
    (ingest s d fn).acceptedAlertHistory = s.acceptedAlertHistory := rfl

theorem goodSt_ingest {s : St} (h : GoodSt s) (d : ExtractedData) (fn : String) :
    GoodSt (ingest s d fn) := by
  obtain ⟨hnd, hlt, hok, hflags, hraw⟩ := h
  obtain ⟨hle, hmem, hndf⟩ :=
    ensureItem_fold_props d.supplierName d.date d.invoiceNumber d.items
      (s.masterItems, s.nextId + 2)
  have hlt2 : ∀ m ∈ (s.masterItems, s.nextId + 2).1, m.id < (s.masterItems, s.nextId + 2).2 :=
    fun m hm => lt_trans (hlt m hm) (by omega)
  obtain ⟨hnd', hlt'⟩ := hndf hnd hlt2
  refine ⟨?_, ?_, ?_, ?_, ?_⟩
  · rw [ingest_masterItems_eq]; exact hnd'
  · rw [ingest_masterItems_eq, ingest_nextId_eq]; exact hlt'
  · rw [ingest_masterItems_eq]
    intro m hm
    rcases hmem m hm with hold | ⟨_, e, hhist, hcp, _, _, _⟩
    · exact hok m hold
    · exact ⟨⟨e, [], hhist, hcp⟩, by rw [hhist]; trivial⟩
  · rw [ingest_rawInvoices_eq]
    intro inv hinv
    rcases List.mem_cons.mp hinv with rfl | hold
    · exact Or.inl rfl
    · exact hflags inv hold
  · rw [ingest_rawInvoices_eq]
    intro inv hinv it hit
    rcases List.mem_cons.mp hinv with rfl | hold
    · simp only at hit
      rcases List.mem_map.mp hit with ⟨eit, _, rfl⟩
      exact ⟨rfl, rfl, rfl⟩
    · exact hraw inv hold it hit

theorem goodSt_commit {s : St} (h : GoodSt s) {a : Alert} (ha : a ∈ activeAlerts s)
    (now : ℤ) : GoodSt (commitPriceChange s a.masterId a now) := by
  obtain ⟨hnd, hlt, hok, hflags, hraw⟩ := h
  refine ⟨?_, ?_, ?_, ?_, ?_⟩
  · rw [commit_masterItems_eq, commit_ids_eq]; exact hnd
  · rw [commit_masterItems_eq, commit_nextId_eq]
    intro m' hm'
    rcases List.mem_map.mp hm' with ⟨m, hm, rfl⟩
    rw [commitItem_id]
    exact hlt m hm
  · rw [commit_masterItems_eq]
    intro m' hm'
    rcases List.mem_map.mp hm' with ⟨m, hm, rfl⟩
    unfold commitItem
    split
    case isTrue hcond =>
      have hid : a.masterId = some m.id := by
        have := beq_iff_eq.mp hcond; exact this.symm
      obtain ⟨m₀, hm₀, hideq, hamt⟩ := alert_sound hraw ha hid
      have hmeq : m₀ = m :=
        List.inj_on_of_nodup_map hnd hm₀ hm (by simpa using hideq)
      subst hmeq
      obtain ⟨⟨e₀, t, hhist, hcp⟩, hchain⟩ := hok m₀ hm₀
      refine ⟨⟨commitEntry a, m₀.history, rfl, rfl⟩, ?_⟩
      rw [hhist]
      refine ⟨?_, by rw [← hhist]; exact hchain⟩
      show a.amountChange = a.newPrice - e₀.price
      rw [hamt, hcp]
    case isFalse => exact hok m hm
  · rw [commit_rawInvoices_eq]; exact hflags
  · rw [commit_rawInvoices_eq]; exact hraw

theorem goodSt_togglePaid {s : St} (h : GoodSt s) (id : ℕ) :
    GoodSt (toggleInvoicePaid s id) := by
  obtain ⟨hnd, hlt, hok, hflags, hraw⟩ := h
  refine ⟨hnd, hlt, hok, ?_, ?_⟩
  · intro inv' hinv'
    rcases List.mem_map.mp hinv' with ⟨inv, hinv, rfl⟩
    split
    · exact Or.inr rfl
    · exact hflags inv hinv
  · intro inv' hinv' it hit
    rcases List.mem_map.mp hinv' with ⟨inv, hinv, rfl⟩
    revert hit
    split <;> intro hit <;> exact hraw inv hinv it hit

theorem goodSt_toggleHold {s : St} (h : GoodSt s) (id : ℕ) :
    GoodSt (toggleInvoiceHold s id) := by
  obtain ⟨hnd, hlt, hok, hflags, hraw⟩ := h
  refine ⟨hnd, hlt, hok, ?_, ?_⟩
  · intro inv' hinv'
    rcases List.mem_map.mp hinv' with ⟨inv, hinv, rfl⟩
    split
    · exact Or.inl rfl
    · exact hflags inv hinv
  · intro inv' hinv' it hit
    rcases List.mem_map.mp hinv' with ⟨inv, hinv, rfl⟩
    revert hit
    split <;> intro hit <;> exact hraw inv hinv it hit

theorem goodSt_delInvoice {s : St} (h : GoodSt s) (id : ℕ) :
    GoodSt (deleteInvoice s id) := by
  obtain ⟨hnd, hlt, hok, hflags, hraw⟩ := h
  refine ⟨hnd, hlt, hok, ?_, ?_⟩
  · intro inv hinv
    exact hflags inv (List.mem_of_mem_filter hinv)
  · intro inv hinv it hit
    exact hraw inv (List.mem_of_mem_filter hinv) it hit

theorem goodSt_delMaster {s : St} (h : GoodSt s) (id : ℕ) :
    GoodSt (deleteMasterItem s id) := by
  obtain ⟨hnd, hlt, hok, hflags, hraw⟩ := h
  refine ⟨?_, ?_, ?_, hflags, hraw⟩
  · exact List.Nodup.sublist (List.Sublist.map _ (List.filter_sublist _)) hnd
  · intro m hm
    exact hlt m (List.mem_of_mem_filter hm)
  · intro m hm
    exact hok m (List.mem_of_mem_filter hm)

/-- Every state reachable from the empty vault is well formed. -/
theorem reachable_good {s : St} (h : Reachable s) : GoodSt s := by
  induction h with
  | init =>
    exact ⟨by simp [initSt], by simp [initSt], by simp [initSt],
      by simp [initSt], by simp [initSt]⟩
  | step _ hstep ih =>
    cases hstep with
    | ingest d fn => exact goodSt_ingest ih d fn
    | accept _ a now ha hok =>
      unfold handleAcceptPrice at hok
      injection hok with hok
      subst hok
      exact goodSt_commit ih ha now
    | togglePaid id => exact goodSt_togglePaid ih id
    | toggleHold id => exact goodSt_toggleHold ih id
    | delInvoice id => exact goodSt_delInvoice ih id
    | delMaster id => exact goodSt_delMaster ih id

theorem alreadyAccepted_iff {hist : List AcceptedAlert} {inv : Invoice} {item : InvoiceItem} :
    alreadyAccepted hist inv item = true ↔
      ∃ h ∈ hist, h.invoiceNumber = inv.invoiceNumber ∧ h.itemName = item.name := by
  simp [alreadyAccepted, List.any_eq_true]

theorem newerAcceptedExists_iff {hist : List AcceptedAlert} {inv : Invoice}
    {item : InvoiceItem} :
    newerAcceptedExists hist inv item = true ↔
      ∃ h ∈ hist, h.itemName = item.name ∧ h.supplier = inv.supplierName ∧
        inv.date < h.date := by
  simp [newerAcceptedExists, List.any_eq_true, and_assoc]

theorem alertEntry_of_alreadyAccepted {st : St} {inv : Invoice} {item : InvoiceItem}
    (hacc : alreadyAccepted st.acceptedAlertHistory inv item = true) :
    alertEntry st inv item = none := by
  cases hpc : item.priceChange with
  | none => exact alertEntry_of_none hpc
  | some c =>
    rw [alertEntry_of_some hpc]
    split_ifs with h1 h2
    · rw [h2.1] at hacc; exact absurd hacc (by simp)
    · rfl
    · rfl

theorem alertEntry_of_newer {st : St} {inv : Invoice} {item : InvoiceItem}
    (hnew : newerAcceptedExists st.acceptedAlertHistory inv item = true) :
    alertEntry st inv item = none := by
  cases hpc : item.priceChange with
  | none => exact alertEntry_of_none hpc
  | some c =>
    rw [alertEntry_of_some hpc]
    split_ifs with h1 h2
    · rw [h2.2] at hnew; exact absurd hnew (by simp)
    · rfl
    · rfl

theorem ensureItem_fold_mem (sn : String) (d : ℤ) (invNum : String)
    (items : List ExtractedItem) :
    ∀ (acc : List MasterItem × ℕ) (m : MasterItem), m ∈ acc.1 →
      m ∈ (items.foldl (ensureItem sn d invNum) acc).1 := by
  induction items with
  | nil => intro acc m hm; exact hm
  | cons it rest ih =>
    intro acc m hm
    rw [List.foldl_cons]
    refine ih _ m ?_
    rcases ensureItem_branches sn d invNum acc it with hb | hb <;> rw [hb]
    · exact hm
    · exact List.mem_append_left _ hm

theorem St_eq_of_fields {s t : St} (h1 : s.rawInvoices = t.rawInvoices)
    (h2 : s.masterItems = t.masterItems) (h3 : s.suppliers = t.suppliers)
    (h4 : s.acceptedAlertHistory = t.acceptedAlertHistory)
    (h5 : s.nextId = t.nextId) : s = t := by
  cases s
  cases t
  simp_all

/-- Sample registry item: Acme's Widget anchored at 10. -/
def exMasterW : MasterItem :=
  { id := 0, supplierName := "Acme", name := "Widget", currentPrice := 10,
    history := [{ date := 50, price := 10, variance := 0, percentChange := .fin 0,
                  source := .audit, invoiceNumber := some "INV-0" }],
    lastUpdated := 50 }

/-- Sample raw line item: Widget observed at 12. -/
def exItemW : InvoiceItem :=
  { name := "Widget", unitPrice := 12, quantity := 1, total := 12,
    previousUnitPrice := none, priceChange := none, percentChange := none }

/-- Sample raw invoice from Acme carrying the 12-priced Widget. -/
def exInvoiceA : Invoice :=
  { id := 1, supplierName := "Acme", date := 100, invoiceNumber := "INV-1",
    totalAmount := 12, gstAmount := 0, items := [exItemW], status := .matched,
    isPaid := false, isHold := false, fileName := "a.pdf" }

/-- Sample state: one Acme invoice against the Widget baseline. -/
def exSt : St :=
  { rawInvoices := [exInvoiceA], masterItems := [exMasterW], suppliers := [],
    acceptedAlertHistory := [], nextId := 2 }

/-- Raw line item priced within the claimed 0.01 tolerance of the
baseline 10: unit price 10.005 = 2001/200. -/
def exItemT : InvoiceItem :=
  { name := "Widget", unitPrice := 2001/200, quantity := 1, total := 2001/200,
    previousUnitPrice := none, priceChange := none, percentChange := none }

/-- A zero-anchored registry item, the division-by-zero trigger. -/
def exMasterZ : MasterItem :=
  { id := 0, supplierName := "S", name := "X", currentPrice := 0,
    history := [{ date := 10, price := 0, variance := 0, percentChange := .fin 0,
                  source := .audit, invoiceNumber := some "I0" }],
    lastUpdated := 10 }

/-- Raw line item observed at 5 against the zero baseline. -/
def exItemZ : InvoiceItem :=
  { name := "X", unitPrice := 5, quantity := 1, total := 5,
    previousUnitPrice := none, priceChange := none, percentChange := none }

/-- Invoice carrying the zero-baseline item. -/
def exInvZ : Invoice :=
  { id := 1, supplierName := "S", date := 100, invoiceNumber := "I1",
    totalAmount := 5, gstAmount := 0, items := [exItemZ], status := .matched,
    isPaid := false, isHold := false, fileName := "z.pdf" }

/-- State exercising the zero-baseline division. -/
def exStZ : St :=
  { rawInvoices := [exInvZ], masterItems := [exMasterZ], suppliers := [],
    acceptedAlertHistory := [], nextId := 2 }

/-- The alert the feed produces for `exStZ` (division by the zero anchor
gives a positive-infinite percent change). -/
def exAlertZ : Alert :=
  { id := "1-X", masterId := some 0, itemName := "X", supplier := "S",
    oldPrice := 0, newPrice := 5, change := .posInf, amountChange := 5,
    invoiceNumber := "I1", date := 100 }

/-- An alert whose referenced master id (99) is absent from `exSt`,
modelling a registry item deleted between detection and acceptance. -/
def exAlertGhost : Alert :=
  { id := "1-Widget", masterId := some 99, itemName := "Widget",
    supplier := "Acme", oldPrice := 10, newPrice := 12, change := .fin 20,
    amountChange := 2, invoiceNumber := "INV-1", date := 100 }

/-- Sample extracted line item. -/
def exEItemW : ExtractedItem :=
  { name := "Widget", unitPrice := 12, quantity := 1, total := 12 }

/-- Sample extraction result for ingestion witnesses. -/
def exData : ExtractedData :=
  { supplierName := "Acme", date := 100, invoiceNumber := "INV-1",
    totalAmount := 12, gstAmount := 0, bankAccount := none, address := none,
    abn := none, tel := none, email := none, creditTerm := none,
    items := [exEItemW] }

/-- The acceptance-log record of `exAlertGhost`, for suppression tests. -/
def exAccA : AcceptedAlert := { toAlert := exAlertGhost, acceptedAt := 150 }

/-- State whose acceptance log already records (INV-1, Widget). -/
def exStAcc : St :=
  { rawInvoices := [exInvoiceA], masterItems := [exMasterW], suppliers := [],
    acceptedAlertHistory := [exAccA], nextId := 2 }

/-- C1 counterexample: in `exSt` the Widget baseline is 10 and the
invoice price is 12, so the enriched invoice carries exactly one item,
with positive `priceChange` 2 and no negative one — the claimed status
table demands `price_increase` — yet the derived view's status is
`matched`. -/
theorem spec_c1_counterexample :
    (enrichedInvoices exSt).map (fun i => (i.status, i.items.map (·.priceChange)))
      = [(Status.matched, [some 2])] ∧
    Status.matched ≠ Status.price_increase := by
  constructor
  · simp [enrichedInvoices, exSt, exInvoiceA, exItemW, exMasterW, enrichInvoice,
      enrichItem, findMaster, List.mergeSort, jsMul100, jsDiv]
    norm_num
  · decide

/-- C1 (amended): the read-time variance derivation never recomputes an
invoice's overall status — enrichment carries the stored status over
unchanged, so every invoice of the enriched view shows the status of its
raw record, and ingestion stores `matched` unconditionally; the
hasIncrease/hasDecrease classification of the claim does not exist in
the code. -/
theorem spec_status_not_recomputed :
    (∀ (ms : List MasterItem) (inv : Invoice), (enrichInvoice ms inv).status = inv.status) ∧
    (∀ (st : St) (inv : Invoice), inv ∈ enrichedInvoices st →
      ∃ rinv ∈ st.rawInvoices, inv.status = rinv.status) ∧
    (∀ (st : St) (d : ExtractedData) (fn : String) (inv : Invoice),
      inv ∈ (ingest st d fn).rawInvoices → inv ∈ st.rawInvoices ∨ inv.status = .matched) := by
  refine ⟨fun ms inv => rfl, ?_, ?_⟩
  · intro st inv hinv
    rcases mem_enrichedInvoices.mp hinv with ⟨rinv, hmem, rfl⟩
    exact ⟨rinv, hmem, rfl⟩
  · intro st d fn inv hinv
    rw [ingest_rawInvoices_eq] at hinv
    rcases List.mem_cons.mp hinv with rfl | hold
    · exact Or.inr rfl
    · exact Or.inl hold

/-- C1 witness: the amended statement evaluated on `exSt`. -/
theorem spec_c1_witness :
    ∃ rinv ∈ exSt.rawInvoices,
      (enrichInvoice exSt.masterItems exInvoiceA).status = rinv.status :=
  spec_status_not_recomputed.2.1 exSt (enrichInvoice exSt.masterItems exInvoiceA)
    (mem_enrichedInvoices.mpr ⟨exInvoiceA, by simp [exSt], rfl⟩)

/-- C2 counterexample: baseline 10 against unit price 10.005 — the
absolute difference 0.005 is within the claimed 0.01 tolerance, so the
claim demands no variance fields, yet the derivation attaches them
(condition in the code is exact inequality, not a tolerance band). -/
theorem spec_c2_counterexample :
    |exMasterW.currentPrice - exItemT.unitPrice| ≤ 1/100 ∧
    (enrichItem [exMasterW] "Acme" exItemT).priceChange = some (1/200) ∧
    (enrichItem [exMasterW] "Acme" exItemT).previousUnitPrice = some 10 := by
  refine ⟨by norm_num [exMasterW, exItemT, abs_le], ?_, ?_⟩ <;>
    · rw [@enrichItem_of_some [exMasterW] "Acme" exItemT exMasterW (by decide),
        if_pos (by norm_num [exMasterW, exItemT])]
      norm_num [exMasterW, exItemT]

/-- C2 (amended): the variance fields are attached exactly when a master
item exists for the (supplier, name) key and its anchored price differs
from the unit price — exact inequality, with no 0.01 tolerance band —
and then `previousUnitPrice = currentPrice`,
`priceChange = unitPrice - currentPrice`, and (for a nonzero baseline)
`percentChange = priceChange / currentPrice * 100`; when no master item
exists, or the two prices are exactly equal, the item is returned as
stored and so carries no variance fields. -/
theorem spec_variance_rule_exact (ms : List MasterItem) (sn : String) (item : InvoiceItem) :
    (∀ master, findMaster ms sn item.name = some master →
      master.currentPrice ≠ item.unitPrice →
        (enrichItem ms sn item).previousUnitPrice = some master.currentPrice ∧
        (enrichItem ms sn item).priceChange = some (item.unitPrice - master.currentPrice) ∧
        (master.currentPrice ≠ 0 →
          (enrichItem ms sn item).percentChange =
            some (.fin ((item.unitPrice - master.currentPrice) / master.currentPrice * 100)))) ∧
    (∀ master, findMaster ms sn item.name = some master →
      master.currentPrice = item.unitPrice → enrichItem ms sn item = item) ∧
    (findMaster ms sn item.name = none → enrichItem ms sn item = item) := by
  refine ⟨?_, ?_, fun hm => enrichItem_of_none hm⟩
  · intro master hm hne
    rw [enrichItem_of_some hm, if_pos hne]
    refine ⟨rfl, rfl, fun hz => ?_⟩
    simp [jsDiv, jsMul100, hz]
  · intro master hm he
    rw [enrichItem_of_some hm, if_neg (by simpa using he)]

/-- C2 witness: the amended rule evaluated on the spec's own scenario
(baseline 10, unit price 12 gives fields 10, 2, 20%). -/
theorem spec_c2_witness :
    (enrichItem [exMasterW] "Acme" exItemW).previousUnitPrice = some 10 ∧
    (enrichItem [exMasterW] "Acme" exItemW).priceChange = some 2 ∧
    (enrichItem [exMasterW] "Acme" exItemW).percentChange = some (.fin 20) := by
  obtain ⟨h1, h2, h3⟩ :=
    (spec_variance_rule_exact [exMasterW] "Acme" exItemW).1 exMasterW (by decide)
      (by norm_num [exMasterW, exItemW])
  refine ⟨?_, ?_, ?_⟩
  · rw [h1]; norm_num [exMasterW]
  · rw [h2]; norm_num [exMasterW, exItemW]
  · rw [h3 (by norm_num [exMasterW])]; norm_num [exMasterW, exItemW]

/-- C3: characterization of the pending-alert feed.  (a) The feed holds
exactly the alerts contributed by (invoice, item) pairs of the enriched
view; (b) a pair contributes one iff it carries a `priceChange` of
magnitude above 0.01 and neither suppression condition holds — (1) an
accepted alert with this invoice number and item name, (2) an accepted
alert for this item name and supplier strictly newer than the invoice;
(c) once an alert is accepted against an existing registry item, any
pair with its invoice number and item name contributes nothing on
recomputation; (d) a strictly newer accepted alert for the same item
name and supplier suppresses the pair. -/
theorem spec_alert_feed_rule (st : St) :
    (∀ a : Alert, a ∈ activeAlerts st ↔
      ∃ inv ∈ enrichedInvoices st, ∃ item ∈ inv.items, alertEntry st inv item = some a) ∧
    (∀ (inv : Invoice) (item : InvoiceItem),
      (alertEntry st inv item).isSome ↔
        (∃ c, item.priceChange = some c ∧ |c| > 1/100) ∧
        ¬(∃ h ∈ st.acceptedAlertHistory, h.invoiceNumber = inv.invoiceNumber ∧
            h.itemName = item.name) ∧
        ¬(∃ h ∈ st.acceptedAlertHistory, h.itemName = item.name ∧
            h.supplier = inv.supplierName ∧ inv.date < h.date)) ∧
    (∀ (a : Alert) (now : ℤ) (s' : St),
      (∃ m ∈ st.masterItems, some m.id = a.masterId) →
      handleAcceptPrice st a now = .ok s' →
      ∀ (inv : Invoice) (item : InvoiceItem), inv.invoiceNumber = a.invoiceNumber →
        item.name = a.itemName → alertEntry s' inv item = none) ∧
    (∀ (inv : Invoice) (item : InvoiceItem),
      (∃ h ∈ st.acceptedAlertHistory, h.itemName = item.name ∧
        h.supplier = inv.supplierName ∧ inv.date < h.date) →
      alertEntry st inv item = none) := by
  refine ⟨fun a => mem_activeAlerts, ?_, ?_, ?_⟩
  · intro inv item
    constructor
    · intro hs
      rcases Option.isSome_iff_exists.mp hs with ⟨a, ha⟩
      rcases alertEntry_some.mp ha with ⟨c, hc, _, hgt, hacc, hnew, _⟩
      refine ⟨⟨c, hc, hgt⟩, ?_, ?_⟩
      · intro hex
        rw [alreadyAccepted_iff.mpr hex] at hacc
        exact absurd hacc (by simp)
      · intro hex
        rw [newerAcceptedExists_iff.mpr hex] at hnew
        exact absurd hnew (by simp)
    · rintro ⟨⟨c, hc, hgt⟩, hnacc, hnnew⟩
      have hc0 : c ≠ 0 := by
        intro h
        rw [h] at hgt
        norm_num at hgt
      have hacc : alreadyAccepted st.acceptedAlertHistory inv item = false := by
        cases h : alreadyAccepted st.acceptedAlertHistory inv item
        · rfl
        · exact absurd (alreadyAccepted_iff.mp h) hnacc
      have hnew : newerAcceptedExists st.acceptedAlertHistory inv item = false := by
        cases h : newerAcceptedExists st.acceptedAlertHistory inv item
        · rfl
        · exact absurd (newerAcceptedExists_iff.mp h) hnnew
      rw [alertEntry_of_some hc, if_pos ⟨hc0, hgt⟩, if_pos ⟨hacc, hnew⟩]
      rfl
  · rintro a now s' ⟨m, hm, hid⟩ hok inv item hinvn hname
    unfold handleAcceptPrice at hok
    injection hok with hok
    subst hok
    apply alertEntry_of_alreadyAccepted
    apply alreadyAccepted_iff.mpr
    refine ⟨{ toAlert := a, acceptedAt := now }, ?_, hinvn.symm, hname.symm⟩
    rw [commit_log_eq]
    refine List.mem_append_left _ (List.mem_map.mpr ⟨m, ?_, rfl⟩)
    exact List.mem_filter.mpr ⟨hm, beq_iff_eq.mpr hid⟩
  · intro inv item hex
    exact alertEntry_of_newer (newerAcceptedExists_iff.mpr hex)

/-- C3 witness: on `exSt` (empty acceptance log, variance 2 above
tolerance) the pair does contribute a pending alert. -/
theorem spec_c3_witness :
    (alertEntry exSt (enrichInvoice exSt.masterItems exInvoiceA)
      (enrichItem exSt.masterItems "Acme" exItemW)).isSome :=
  ((spec_alert_feed_rule exSt).2.1 _ _).mpr
    ⟨⟨2, by
        rw [show exSt.masterItems = [exMasterW] from rfl,
          @enrichItem_of_some [exMasterW] "Acme" exItemW exMasterW (by decide),
          if_pos (by norm_num [exMasterW, exItemW])]
        norm_num [exMasterW, exItemW], by norm_num⟩,
      by simp [exSt], by simp [exSt]⟩

/-- C4 counterexample: accepting `exAlertGhost`, whose `masterId` 99 is
not in `exSt`'s registry, does not fail with NotFoundError — it returns
`ok` with the state completely unchanged (and a success toast in the
source). -/
theorem spec_c4_counterexample :
    handleAcceptPrice exSt exAlertGhost 7 = .ok exSt ∧
    handleAcceptPrice exSt exAlertGhost 7 ≠ .error PgError.notFoundError := by
  constructor
  · show Except.ok (commitPriceChange exSt (some 99) exAlertGhost 7) = Except.ok exSt
    rfl
  · intro h
    rw [handleAcceptPrice] at h
    exact absurd h (by simp)

/-- C4 (amended): accepting an alert whose referenced master-item id is
absent from the registry never raises NotFoundError; the operation
silently succeeds as a no-op — the returned state is the input state, so
no AcceptedAlert entry is written and the registry is unchanged (the
log-only-with-commit coupling of the claim does hold, but the failure is
silent rather than a surfaced error). -/
theorem spec_accept_missing_noop (st : St) (a : Alert) (now : ℤ)
    (h : ∀ m ∈ st.masterItems, some m.id ≠ a.masterId) :
    handleAcceptPrice st a now = .ok st := by
  unfold handleAcceptPrice
  congr 1
  refine St_eq_of_fields rfl ?_ rfl ?_ rfl
  · rw [commit_masterItems_eq]
    have : ∀ m ∈ st.masterItems, commitItem a a.masterId m = m := by
      intro m hm
      have hb : (some m.id == a.masterId) = false := by
        simpa using h m hm
      rw [commitItem, hb]
      simp
    calc st.masterItems.map (commitItem a a.masterId)
        = st.masterItems.map id := List.map_congr_left fun m hm => this m hm
      _ = st.masterItems := List.map_id _
  · rw [commit_log_eq]
    have : st.masterItems.filter (fun m => some m.id == a.masterId) = [] := by
      rw [List.filter_eq_nil_iff]
      intro m hm
      simpa using h m hm
    rw [this]
    rfl

/-- C4 witness: the amended no-op behaviour on the concrete missing-id
acceptance. -/
theorem spec_c4_witness : handleAcceptPrice exSt exAlertGhost 7 = .ok exSt :=
  spec_accept_missing_noop exSt exAlertGhost 7 (by decide)

/-- C5 counterexample: on `exStZ` (zero anchored price, invoice price 5)
the feed produces `exAlertZ` whose percent change is +Infinity, and
accepting it stores that Infinity in the new history entry's
`percentChange` — no fallback intervenes. -/
theorem spec_c5_counterexample :
    exAlertZ ∈ activeAlerts exStZ ∧ exAlertZ.change = JsNum.posInf ∧
    ∃ s', handleAcceptPrice exStZ exAlertZ 99 = Except.ok s' ∧
      ∃ m ∈ s'.masterItems, ∃ e ∈ m.history, e.percentChange = JsNum.posInf := by
  refine ⟨?_, rfl, commitPriceChange exStZ (some 0) exAlertZ 99, rfl, ?_⟩
  · have : activeAlerts exStZ = [exAlertZ] := by
      simp [activeAlerts, enrichedInvoices, exStZ, exInvZ, exItemZ, exMasterZ, enrichInvoice,
        enrichItem, findMaster, List.mergeSort, alertEntry, mkAlert, alreadyAccepted,
        newerAcceptedExists, jsMul100, jsDiv, jsOrZero, jsFalsy, ratOrZero, exAlertZ,
        List.filterMap_cons]
      norm_num
      decide
    rw [this]
    exact List.mem_singleton.mpr rfl
  · rw [commit_masterItems_eq]
    refine ⟨commitItem exAlertZ (some 0) exMasterZ,
      List.mem_map_of_mem _ (by simp [exStZ]), commitEntry exAlertZ, ?_, rfl⟩
    rw [commitItem, if_pos (by decide)]
    exact List.mem_cons_self _ _

/-- C5 (amended): there is no division-by-zero special case — deriving
variance against a master item whose `currentPrice` is 0 (with a nonzero
unit price) yields a signed Infinity in `percentChange`, and the commit
stores the alert's `percentChange` verbatim in the new history entry, so
such an Infinity reaches stored data. -/
theorem spec_zero_baseline_infinity :
    (∀ (ms : List MasterItem) (sn : String) (item : InvoiceItem) (master : MasterItem),
      findMaster ms sn item.name = some master → master.currentPrice = 0 →
      item.unitPrice ≠ 0 →
      (enrichItem ms sn item).percentChange =
        some (if 0 < item.unitPrice then JsNum.posInf else JsNum.negInf)) ∧
    (∀ (st : St) (itemId : Option ℕ) (a : Alert) (now : ℤ) (m' : MasterItem),
      m' ∈ (commitPriceChange st itemId a now).masterItems →
      m' ∈ st.masterItems ∨ m'.history.head?.map (·.percentChange) = some a.change) := by
  constructor
  · intro ms sn item master hm hz hu
    rw [enrichItem_of_some hm, if_pos (by rw [hz]; exact fun h => hu h.symm)]
    show some (jsMul100 (jsDiv (item.unitPrice - master.currentPrice) master.currentPrice))
      = some (if 0 < item.unitPrice then JsNum.posInf else JsNum.negInf)
    rw [hz, sub_zero, jsDiv, if_pos rfl, if_neg hu]
    split_ifs with h
    · rfl
    · rfl
  · intro st itemId a now m' hm'
    rw [commit_masterItems_eq] at hm'
    rcases List.mem_map.mp hm' with ⟨m, hm, rfl⟩
    rw [commitItem]
    split
    · exact Or.inr rfl
    · exact Or.inl hm

/-- C5 witness: the amended statement evaluated on the zero-anchored
fixture (unit price 5, baseline 0 gives +Infinity). -/
theorem spec_c5_witness :
    (enrichItem [exMasterZ] "S" exItemZ).percentChange = some JsNum.posInf := by
  have h := spec_zero_baseline_infinity.1 [exMasterZ] "S" exItemZ exMasterZ
    (by decide) rfl (by norm_num [exItemZ])
  rw [h, if_pos (by norm_num [exItemZ])]

/-- The master item seeded by the sample ingestion. -/
def exSeedM : MasterItem := seedItem "Acme" 100 "INV-1" 2 exEItemW

/-- C6: in every reachable state each master item's `currentPrice`
equals its history head's price and every history entry's variance is
its price minus the next entry's price; moreover any single further
operation leaves each registry item untouched, creates it with a
one-entry history, or extends an existing item's history by prepending
one entry (same id, same tail) — histories are never reordered or
truncated short of deleting the item. -/
theorem spec_registry_history_invariant :
    ∀ s : St, Reachable s →
      (∀ m ∈ s.masterItems,
        (∃ e t, m.history = e :: t ∧ m.currentPrice = e.price) ∧ chainOk m.history) ∧
      (∀ s', Step s s' → ∀ m' ∈ s'.masterItems,
        m' ∈ s.masterItems ∨ (∃ e, m'.history = [e]) ∨
        (∃ m ∈ s.masterItems, ∃ e, m'.id = m.id ∧ m'.history = e :: m.history)) := by
  intro s hr
  constructor
  · exact (reachable_good hr).2.2.1
  · intro s' hstep m' hm'
    cases hstep with
    | ingest d fn =>
      rw [ingest_masterItems_eq] at hm'
      rcases ((ensureItem_fold_props d.supplierName d.date d.invoiceNumber d.items)
          (s.masterItems, s.nextId + 2)).2.1 m' hm' with h | ⟨_, e, hh, _⟩
      · exact Or.inl h
      · exact Or.inr (Or.inl ⟨e, hh⟩)
    | accept _ a now ha hok =>
      unfold handleAcceptPrice at hok
      injection hok with hok
      subst hok
      rw [commit_masterItems_eq] at hm'
      rcases List.mem_map.mp hm' with ⟨m, hm, rfl⟩
      rw [commitItem]
      split
      · exact Or.inr (Or.inr ⟨m, hm, commitEntry a, rfl, rfl⟩)
      · exact Or.inl hm
    | togglePaid id => exact Or.inl hm'
    | toggleHold id => exact Or.inl hm'
    | delInvoice id => exact Or.inl hm'
    | delMaster id => exact Or.inl (List.mem_of_mem_filter hm')

/-- C6 witness: the head-price law read off the seeded item of a
concrete one-step reachable state. -/
theorem spec_c6_witness :
    ∃ e t, exSeedM.history = e :: t ∧ exSeedM.currentPrice = e.price :=
  ((spec_registry_history_invariant (ingest initSt exData "f.pdf")
      (Reachable.step Reachable.init (Step.ingest initSt exData "f.pdf"))).1
    exSeedM (by decide)).1

/-- C7: master-item seeding is idempotent — when a registry item for the
(supplier, name) key already exists, the step is a complete no-op (the
existing item, its price and history included, is untouched and nothing
is added); when none exists, exactly one item is appended, anchored at
the observed unit price with a single history entry of variance 0,
percent change 0 and source `audit`; running the step twice equals
running it once; and whole-invoice ingestion never drops or replaces an
existing registry item. -/
theorem spec_ensureItem_rules :
    (∀ (sn : String) (d : ℤ) (invNum : String) (acc : List MasterItem × ℕ)
        (it : ExtractedItem),
      (∃ m ∈ acc.1, m.name = it.name ∧ m.supplierName = sn) →
      ensureItem sn d invNum acc it = acc) ∧
    (∀ (sn : String) (d : ℤ) (invNum : String) (acc : List MasterItem × ℕ)
        (it : ExtractedItem),
      (∀ m ∈ acc.1, ¬(m.name = it.name ∧ m.supplierName = sn)) →
      ensureItem sn d invNum acc it =
        (acc.1 ++ [seedItem sn d invNum acc.2 it], acc.2 + 1)) ∧
    (∀ (sn : String) (d : ℤ) (invNum : String) (acc : List MasterItem × ℕ)
        (it : ExtractedItem),
      ensureItem sn d invNum (ensureItem sn d invNum acc it) it =
        ensureItem sn d invNum acc it) ∧
    (∀ (st : St) (d : ExtractedData) (fn : String) (m : MasterItem),
      m ∈ st.masterItems → m ∈ (ingest st d fn).masterItems) := by
  have hany : ∀ (sn : String) (ms : List MasterItem) (it : ExtractedItem),
      (ms.any fun m => m.name == it.name && m.supplierName == sn) = true ↔
        ∃ m ∈ ms, m.name = it.name ∧ m.supplierName = sn := by
    intro sn ms it
    simp [List.any_eq_true]
  refine ⟨?_, ?_, ?_, ?_⟩
  · intro sn d invNum acc it hex
    rw [ensureItem_eq, if_pos ((hany sn acc.1 it).mpr hex)]
  · intro sn d invNum acc it hnone
    rw [ensureItem_eq, if_neg]
    intro h
    rcases (hany sn acc.1 it).mp h with ⟨m, hm, hp⟩
    exact hnone m hm hp
  · intro sn d invNum acc it
    rcases ensureItem_branches sn d invNum acc it with hb | hb <;> rw [hb]
    · exact hb
    · rw [ensureItem_eq, if_pos]
      apply (hany sn _ it).mpr
      exact ⟨seedItem sn d invNum acc.2 it, List.mem_append_right _ (by simp), rfl, rfl⟩
  · intro st d fn m hm
    rw [ingest_masterItems_eq]
    exact ensureItem_fold_mem d.supplierName d.date d.invoiceNumber d.items _ m hm

/-- C7 witness: with the Widget baseline already present, seeding the
same key again changes nothing. -/
theorem spec_c7_witness :
    ensureItem "Acme" 100 "INV-1" ([exMasterW], 5) exEItemW = ([exMasterW], 5) :=
  spec_ensureItem_rules.1 "Acme" 100 "INV-1" ([exMasterW], 5) exEItemW
    ⟨exMasterW, by simp, by decide⟩

/-- C8: every invoice of every reachable state — ingestion starts both
flags false, and each toggle clears the other flag — never has `isPaid`
and `isHold` true together. -/
theorem spec_paid_hold_exclusive :
    ∀ s : St, Reachable s → ∀ inv ∈ s.rawInvoices,
      ¬(inv.isPaid = true ∧ inv.isHold = true) := by
  intro s hr inv hinv hboth
  rcases (reachable_good hr).2.2.2.1 inv hinv with h | h
  · rw [hboth.1] at h; exact absurd h (by simp)
  · rw [hboth.2] at h; exact absurd h (by simp)

/-- The sample invoice after ingestion and one paid-toggle. -/
def exInvPaid : Invoice :=
  { id := 0, supplierName := "Acme", date := 100, invoiceNumber := "INV-1",
    totalAmount := 12, gstAmount := 0, items := [rawItem exEItemW],
    status := .matched, isPaid := true, isHold := false, fileName := "f.pdf" }

/-- C8 witness: the exclusion law read off a concrete reachable state
with a toggled invoice. -/
theorem spec_c8_witness :
    ¬(exInvPaid.isPaid = true ∧ exInvPaid.isHold = true) :=
  spec_paid_hold_exclusive (toggleInvoicePaid (ingest initSt exData "f.pdf") 0)
    (Reachable.step (Reachable.step Reachable.init (Step.ingest initSt exData "f.pdf"))
      (Step.togglePaid (ingest initSt exData "f.pdf") 0))
    exInvPaid (by decide)

/-- The merged supplier record of an ingestion hitting an existing name
(the `supDetails` of App.tsx lines 296-301 in the found case). -/
def mergedSupplier (ex : Supplier) (d : ExtractedData) : Supplier :=
  { id := ex.id, name := d.supplierName,
    bankAccount := mergeField d.bankAccount ex.bankAccount,
    address := mergeField d.address ex.address,
    abn := mergeField d.abn ex.abn,
    tel := mergeField d.tel ex.tel,
    email := mergeField d.email ex.email,
    creditTerm := mergeField d.creditTerm ex.creditTerm,
    totalSpent := ex.totalSpent + d.totalAmount }

/-- The fresh supplier record of an ingestion from an unseen name. -/
def freshSupplier (d : ExtractedData) (fresh : ℕ) : Supplier :=
  { id := fresh, name := d.supplierName, bankAccount := d.bankAccount,
    address := d.address, abn := d.abn, tel := d.tel, email := d.email,
    creditTerm := d.creditTerm, totalSpent := d.totalAmount }

theorem updateSuppliers_of_found {sups : List Supplier} {d : ExtractedData}
    {fresh : ℕ} {ex : Supplier}
    (h : sups.find? (fun s => s.name == d.supplierName) = some ex) :
    updateSuppliers sups d fresh =
      sups.map fun s => if s.name == d.supplierName then mergedSupplier ex d else s := by
  unfold updateSuppliers mergedSupplier
  rw [h]

theorem updateSuppliers_of_none {sups : List Supplier} {d : ExtractedData} {fresh : ℕ}
    (h : sups.find? (fun s => s.name == d.supplierName) = none) :
    updateSuppliers sups d fresh = sups ++ [freshSupplier d fresh] := by
  unfold updateSuppliers freshSupplier
  rw [h]

/-- C9: ingestion adds the invoice's `totalAmount` to the matching
supplier's `totalSpent` (creating the record with `totalSpent` equal to
the invoice total when the name is new) and leaves non-matching supplier
records untouched; every other core operation — invoice deletion in
particular — leaves the supplier list, `totalSpent` included, exactly as
it was. -/
theorem spec_totalSpent_rules :
    (∀ (st : St) (d : ExtractedData) (fn : String) (ex : Supplier),
      st.suppliers.find? (fun s => s.name == d.supplierName) = some ex →
      ∃ s1 ∈ (ingest st d fn).suppliers, s1.name = d.supplierName ∧
        s1.totalSpent = ex.totalSpent + d.totalAmount) ∧
    (∀ (st : St) (d : ExtractedData) (fn : String),
      (∀ s0 ∈ st.suppliers, s0.name ≠ d.supplierName) →
      ∃ s1 ∈ (ingest st d fn).suppliers, s1.name = d.supplierName ∧
        s1.totalSpent = d.totalAmount) ∧
    (∀ (st : St) (d : ExtractedData) (fn : String) (s0 : Supplier),
      s0 ∈ st.suppliers → s0.name ≠ d.supplierName → s0 ∈ (ingest st d fn).suppliers) ∧
    (∀ (st : St) (id : ℕ), (deleteInvoice st id).suppliers = st.suppliers) ∧
    (∀ (st : St) (id : ℕ), (toggleInvoicePaid st id).suppliers = st.suppliers) ∧
    (∀ (st : St) (id : ℕ), (toggleInvoiceHold st id).suppliers = st.suppliers) ∧
    (∀ (st : St) (id : ℕ), (deleteMasterItem st id).suppliers = st.suppliers) ∧
    (∀ (st : St) (a : Alert) (now : ℤ) (s' : St),
      handleAcceptPrice st a now = .ok s' → s'.suppliers = st.suppliers) := by
  refine ⟨?_, ?_, ?_, fun st id => rfl, fun st id => rfl, fun st id => rfl,
    fun st id => rfl, ?_⟩
  · intro st d fn ex hfind
    rw [ingest_suppliers_eq, updateSuppliers_of_found hfind]
    refine ⟨mergedSupplier ex d, ?_, rfl, rfl⟩
    refine List.mem_map.mpr ⟨ex, List.mem_of_find?_eq_some hfind, ?_⟩
    rw [if_pos (List.find?_some hfind)]
  · intro st d fn hnone
    have hfind : st.suppliers.find? (fun s => s.name == d.supplierName) = none := by
      rw [List.find?_eq_none]
      intro s0 hs0
      simpa using hnone s0 hs0
    rw [ingest_suppliers_eq, updateSuppliers_of_none hfind]
    exact ⟨freshSupplier d (st.nextId + 1), List.mem_append_right _ (by simp), rfl, rfl⟩
  · intro st d fn s0 hmem hne
    rw [ingest_suppliers_eq]
    cases hf : st.suppliers.find? (fun s => s.name == d.supplierName) with
    | some ex =>
      rw [updateSuppliers_of_found hf]
      refine List.mem_map.mpr ⟨s0, hmem, ?_⟩
      have hb : (s0.name == d.supplierName) = false := beq_eq_false_iff_ne.mpr hne
      simp [hb]
    | none =>
      rw [updateSuppliers_of_none hf]
      exact List.mem_append_left _ hmem
  · intro st a now s' hok
    unfold handleAcceptPrice at hok
    injection hok with hok
    subst hok
    rfl

/-- C9 witness: ingesting the sample document into the empty vault
creates the Acme record with `totalSpent` equal to the invoice total. -/
theorem spec_c9_witness :
    ∃ s1 ∈ (ingest initSt exData "f.pdf").suppliers, s1.name = exData.supplierName ∧
      s1.totalSpent = exData.totalAmount :=
  spec_totalSpent_rules.2.1 initSt exData "f.pdf" (by simp [initSt])

/-- C10: suppression condition (1) keys only on (invoiceNumber,
itemName).  One accepted alert with a given invoice number and item name
removes from the feed every alert carrying that pair — regardless of
which invoice (id or supplier) produced it — and silences the alert
entry of any (invoice, item) pair with that invoice number and item
name, so two distinct invoices from different suppliers sharing an
invoice number and an item name are both suppressed by the single
record. -/
theorem spec_suppression_key (st : St) (h : AcceptedAlert)
    (hmem : h ∈ st.acceptedAlertHistory) :
    (∀ a ∈ activeAlerts st,
      ¬(a.invoiceNumber = h.invoiceNumber ∧ a.itemName = h.itemName)) ∧
    (∀ (inv : Invoice) (item : InvoiceItem), inv.invoiceNumber = h.invoiceNumber →
      item.name = h.itemName → alertEntry st inv item = none) := by
  have hsil : ∀ (inv : Invoice) (item : InvoiceItem), inv.invoiceNumber = h.invoiceNumber →
      item.name = h.itemName → alertEntry st inv item = none := by
    intro inv item hinvn hname
    apply alertEntry_of_alreadyAccepted
    exact alreadyAccepted_iff.mpr ⟨h, hmem, hinvn.symm, hname.symm⟩
  refine ⟨?_, hsil⟩
  intro a ha ⟨hn, hi⟩
  rcases mem_activeAlerts.mp ha with ⟨inv, _, item, _, hentry⟩
  rcases alertEntry_some.mp hentry with ⟨c, _, _, _, _, _, haeq⟩
  have hinvn : inv.invoiceNumber = h.invoiceNumber := by
    rw [← hn, haeq]; rfl
  have hname : item.name = h.itemName := by
    rw [← hi, haeq]; rfl
  rw [hsil inv item hinvn hname] at hentry
  exact absurd hentry (by simp)

/-- C10 witness: with (INV-1, Widget) on the acceptance log, the Acme
invoice's Widget pair contributes no alert entry. -/
theorem spec_c10_witness : alertEntry exStAcc exInvoiceA exItemW = none :=
  (spec_suppression_key exStAcc exAccA (by simp [exStAcc])).2 exInvoiceA exItemW
    (by decide) (by decide)
